import Mathlib

/-!
Shallow embedding of the capped-supply NEAR fungible-token contract in
`src/src/lib.rs` (crate root, 208 lines).

Modelling conventions:
- `u128` balances become `Nat` with explicit bounds against `U128_MAX = 2^128 - 1`;
  the Rust code uses `checked_add` / `checked_sub` with `unwrap`/`expect`, so every
  out-of-range arithmetic step is an abort, modelled as `Except.error`.
- A panicking NEAR call aborts the whole transaction and rolls back all state, so
  every verb is `... → Except FtError σ`: an `error` result produces no successor
  state (the caller keeps the pre-state), an `ok` result carries the new state.
- The host environment is a `Ctx`: `predecessor` (caller account id) and
  `deposit` (attached payment in yoctoNEAR).
- Account ids are `String`s; the identifier validator (`ValidAccountId`) is an
  out-of-scope collaborator, so `.try_into().unwrap()` conversions are identity.
- The token's account map is an association list `List (String × Nat)` whose keys
  are kept duplicate-free by the operations; this makes `Σ balances` computable.
-/

/-- Error taxonomy of the contract, following spec §7. Each constructor stands for
a distinct panic site in the code: `notAuthorized` for the `assert_eq!(predecessor,
owner, "ERR_NOT_ALLOWED")` checks; `invalidAttachedDeposit` for `assert_one_yocto()`;
`overflow` for `mint`'s two abort paths (`checked_add(..).unwrap()` on u128 overflow
and `assert!(next_total_supply <= max_supply, "Overflow")`), which §7 groups as
`Overflow` ("mint would exceed cap or numeric range"); the rest for the token
library's panics. -/
inductive FtError
  | notAuthorized
  | overflow
  | balanceOverflow
  | totalSupplyOverflow
  | totalSupplyUnderflow
  | insufficientBalance
  | accountNotRegistered
  | accountNotEmpty
  | invalidAttachedDeposit
  | selfTransferNotAllowed
  | zeroAmount
deriving DecidableEq, Repr

/-- Decidable equality of verb results, so that concrete runs of the embedded
verbs can be checked by `decide`. -/
instance exceptDecEq {ε α : Type} [DecidableEq ε] [DecidableEq α] :
    DecidableEq (Except ε α)
  | .error e₁, .error e₂ =>
    if h : e₁ = e₂ then .isTrue (by rw [h])
    else .isFalse (fun hh => h (by injection hh))
  | .error _, .ok _ => .isFalse (fun hh => Except.noConfusion hh)
  | .ok _, .error _ => .isFalse (fun hh => Except.noConfusion hh)
  | .ok a₁, .ok a₂ =>
    if h : a₁ = a₂ then .isTrue (by rw [h])
    else .isFalse (fun hh => h (by injection hh))

/-- Maximum `u128` value: balances and `total_supply` are `u128` in the code. -/
def U128_MAX : Nat := 2 ^ 128 - 1

/-- Lookup in the account association list (`accounts.get(account_id)`). -/
def getBal : List (String × Nat) → String → Option Nat
  | [], _ => none
  | (b, v) :: rest, a => if b = a then some v else getBal rest a

/-- Overwrite the balance stored under an existing key
(`accounts.insert(account_id, new_balance)` when the key is present). -/
def updateBal (l : List (String × Nat)) (a : String) (v : Nat) :
    List (String × Nat) :=
  l.map (fun p => if p.1 = a then (p.1, v) else p)

/-- Remove the entry of a registered account (`accounts.remove(account_id)`). -/
def removeAcc : List (String × Nat) → String → List (String × Nat)
  | [], _ => []
  | (b, v) :: rest, a => if b = a then rest else (b, v) :: removeAcc rest a

/-- Sum of all stored balances (the `Σ balances` of spec §3/§8). -/
def sumBal (l : List (String × Nat)) : Nat := (l.map Prod.snd).sum

/-- The embedded token ledger state: the registered-account → balance map and the
total-supply counter (fields `accounts` and `total_supply` of the library's
`FungibleToken` struct stored in `Contract.token`). -/
structure FungibleToken where
  accounts : List (String × Nat)
  total_supply : Nat
deriving DecidableEq, Repr

/-- Modelled from the spec: `FungibleToken::internal_register_account` lives in the
`near_contract_standards` library, outside `src/`. Per spec §4.1 `register`,
it creates a zero-balance entry; its already-registered panic path is unreachable
at its use site in `mint`, which guards it with a `None` check. -/
def internal_register_account (tok : FungibleToken) (a : String) : FungibleToken :=
  { tok with accounts := tok.accounts ++ [(a, 0)] }

/-- Modelled from the spec: `FungibleToken::internal_deposit` lives in the
`near_contract_standards` library, outside `src/`. Per spec §4.1 `deposit` and
§4.3 (the engine's deposit path updates the Account Store balance and the Ledger
total together): it requires the account registered, adds `amount` to its balance
failing if the balance would exceed `2^128-1`, and adds `amount` to `total_supply`
failing on `u128` overflow. -/
def internal_deposit (tok : FungibleToken) (a : String) (amount : Nat) :
    Except FtError FungibleToken :=
  match getBal tok.accounts a with
  | none => .error .accountNotRegistered
  | some bal =>
    if bal + amount ≤ U128_MAX then
      if tok.total_supply + amount ≤ U128_MAX then
        .ok { accounts := updateBal tok.accounts a (bal + amount),
              total_supply := tok.total_supply + amount }
      else .error .totalSupplyOverflow
    else .error .balanceOverflow

/-- Modelled from the spec: `FungibleToken::internal_withdraw` lives in the
`near_contract_standards` library, outside `src/`. Per spec §4.1 `withdraw` and
§4.2 `burn`: it requires the account registered, subtracts `amount` from its
balance failing with `insufficientBalance` when the balance is too small, and
subtracts `amount` from `total_supply`, the underflow there being the internal
consistency check of spec §4.2. -/
def internal_withdraw (tok : FungibleToken) (a : String) (amount : Nat) :
    Except FtError FungibleToken :=
  match getBal tok.accounts a with
  | none => .error .accountNotRegistered
  | some bal =>
    if amount ≤ bal then
      if amount ≤ tok.total_supply then
        .ok { accounts := updateBal tok.accounts a (bal - amount),
              total_supply := tok.total_supply - amount }
      else .error .totalSupplyUnderflow
    else .error .insufficientBalance

/-- Modelled from the spec: `FungibleToken::internal_transfer` lives in the
`near_contract_standards` library, outside `src/`. Per spec §4.3 `transfer`:
requires `from ≠ to` and `amount > 0`, then withdraws from the sender and
deposits to the receiver, both succeeding together. -/
def internal_transfer (tok : FungibleToken) (sender receiver : String)
    (amount : Nat) : Except FtError FungibleToken :=
  if sender = receiver then .error .selfTransferNotAllowed
  else if amount = 0 then .error .zeroAmount
  else
    match internal_withdraw tok sender amount with
    | .error e => .error e
    | .ok tok1 => internal_deposit tok1 receiver amount

/-- The metadata record (`FungibleTokenMetadata`); immutable after construction
and not part of the ledger invariants (spec §3), carried only so that frame
claims can mention it. -/
structure FungibleTokenMetadata where
  spec_version : String
  name : String
  symbol : String
  icon : Option String
  decimals : Nat
deriving DecidableEq, Repr

/-- The contract state (`struct Contract`, src/src/lib.rs lines 33-38):
token ledger, owner id, metadata and the supply cap. -/
structure Contract where
  token : FungibleToken
  owner_id : String
  metadata : FungibleTokenMetadata
  max_supply : Nat
deriving DecidableEq, Repr

/-- Host-call context: the caller (`env::predecessor_account_id()`) and the
attached payment in yoctoNEAR (`env::attached_deposit()`). -/
structure Ctx where
  predecessor : String
  deposit : Nat
deriving DecidableEq, Repr

/-- `near_sdk::assert_one_yocto()`: panics unless exactly one yoctoNEAR is
attached, the "confirm-unit" of the spec glossary. -/
def assert_one_yocto (ctx : Ctx) : Except FtError Unit :=
  if ctx.deposit = 1 then .ok () else .error .invalidAttachedDeposit

/-- `Contract::new` (src lines 81-91): fresh empty token ledger, the given owner,
metadata and cap; `total_supply` starts at 0. The `state_exists` re-init guard and
metadata validation are host/collaborator concerns outside the state model. -/
def Contract.new (owner_id : String) (metadata : FungibleTokenMetadata)
    (max_supply : Nat) : Contract :=
  { token := { accounts := [], total_supply := 0 },
    owner_id := owner_id,
    metadata := metadata,
    max_supply := max_supply }

/-- `Contract::set_owner` (src lines 63-71): requires the caller to be the
current owner (`assert_eq!(predecessor, owner, "ERR_NOT_ALLOWED")`), then
replaces the owner and returns the new owner id. -/
def set_owner (ctx : Ctx) (c : Contract) (new_owner : String) :
    Except FtError (Contract × String) :=
  if ctx.predecessor = c.owner_id then
    .ok ({ c with owner_id := new_owner }, new_owner)
  else .error .notAuthorized

/-- `Contract::get_owner` (src lines 73-76): takes `&mut self` but only clones
and returns `owner_id`; modelled as returning the answer together with the
(unchanged) state. -/
def get_owner (c : Contract) : String × Contract :=
  (c.owner_id, c)

/-- `Contract::mint` (src lines 93-110): owner check first
(`assert_one_yocto()` is commented out in the source), then
`total_supply.checked_add(amount).unwrap()` (abort on u128 overflow), then
`assert!(next_total_supply <= max_supply, "Overflow")`, then registration of the
target account if absent, then `internal_deposit`, echoing `amount` back.
Both overflow abort paths are the `Overflow` of spec §7. The attached deposit is
never consulted and no storage measurement is taken anywhere in the body. -/
def mint (ctx : Ctx) (c : Contract) (account_id : String) (amount : Nat) :
    Except FtError (Contract × Nat) :=
  if ctx.predecessor = c.owner_id then
    if c.token.total_supply + amount ≤ U128_MAX then
      if c.token.total_supply + amount ≤ c.max_supply then
        match internal_deposit
            (if getBal c.token.accounts account_id = none then
              internal_register_account c.token account_id
            else c.token) account_id amount with
        | .ok tok2 => .ok ({ c with token := tok2 }, amount)
        | .error e => .error e
      else .error .overflow
    else .error .overflow
  else .error .notAuthorized

/-- Observable hook events; `Contract::on_tokens_burned` and
`Contract::on_account_closed` (src lines 133-139) only `log!`, so an event value
records such a hook having fired. -/
inductive HookEvent
  | tokensBurned (account : String) (amount : Nat)
  | accountClosed (account : String) (balance : Nat)
deriving DecidableEq, Repr

/-- `Contract::on_tokens_burned` (src lines 137-139): logs the burn; modelled as
producing the corresponding event value. No call site in the contract invokes it
(the `impl_fungible_token_core!` invocation at line 142 passes no burn hook). -/
def on_tokens_burned (account_id : String) (amount : Nat) : HookEvent :=
  .tokensBurned account_id amount

/-- `Contract::on_account_closed` (src lines 133-135): logs the closure; no call
site in the contract invokes it (the `impl_fungible_token_storage!` invocation at
line 143 passes no closed hook). -/
def on_account_closed (account_id : String) (balance : Nat) : HookEvent :=
  .accountClosed account_id balance

/-- `Contract::burn` (src lines 112-121): `assert_one_yocto()` first, then the
owner check, then `internal_withdraw` (which also decrements `total_supply`).
The body ends there: it fires no hook, so the emitted event list of a successful
call is `[]`. -/
def burn (ctx : Ctx) (c : Contract) (account_id : String) (amount : Nat) :
    Except FtError (Contract × List HookEvent) :=
  match assert_one_yocto ctx with
  | .error e => .error e
  | .ok _ =>
    if ctx.predecessor = c.owner_id then
      match internal_withdraw c.token account_id amount with
      | .ok tok => .ok ({ c with token := tok }, [])
      | .error e => .error e
    else .error .notAuthorized

/-- `Contract::change_max_supply` (src lines 123-131): `assert_one_yocto()`
first, then the owner check, then replaces `max_supply` unconditionally — there
is no comparison against the current `total_supply`. -/
def change_max_supply (ctx : Ctx) (c : Contract) (max_supply : Nat) :
    Except FtError Contract :=
  match assert_one_yocto ctx with
  | .error e => .error e
  | .ok _ =>
    if ctx.predecessor = c.owner_id then
      .ok { c with max_supply := max_supply }
    else .error .notAuthorized

/-- `ft_transfer` as generated by `impl_fungible_token_core!(Contract, token)`
(src line 142), whose body is modelled from the spec since the macro expansion
lives in the `near_contract_standards` library outside `src/`:
`assert_one_yocto()`, then `internal_transfer` from the caller to the receiver
(spec §4.3 `transfer` and §6: `from` is implicitly the caller). -/
def ft_transfer (ctx : Ctx) (c : Contract) (receiver_id : String)
    (amount : Nat) : Except FtError Contract :=
  match assert_one_yocto ctx with
  | .error e => .error e
  | .ok _ =>
    match internal_transfer c.token ctx.predecessor receiver_id amount with
    | .ok tok => .ok { c with token := tok }
    | .error e => .error e

/-- `ft_balance_of` as generated by `impl_fungible_token_core!` (src line 142),
modelled from the spec (§4.1 `balance_of`): `accounts.get(account_id).unwrap_or(0)`,
a total function returning 0 for an unregistered account. -/
def ft_balance_of (c : Contract) (account_id : String) : Nat :=
  (getBal c.token.accounts account_id).getD 0

/-- `ft_total_supply` as generated by `impl_fungible_token_core!` (src line 142):
reads the total-supply counter. -/
def ft_total_supply (c : Contract) : Nat :=
  c.token.total_supply

/-- Modelled from the spec: the state effect of storage registration
(`storage_deposit` from `impl_fungible_token_storage!`, src line 143, whose body
lives in the library outside `src/`). Per spec §4.1 `register`: idempotent-safe —
a no-op when already registered, otherwise a fresh zero-balance entry. The
payment/refund side is settled by the collaborator payment mechanism. -/
def storage_register (c : Contract) (account_id : String) : Contract :=
  if getBal c.token.accounts account_id = none then
    { c with token := internal_register_account c.token account_id }
  else c

/-- Modelled from the spec: the state effect of storage unregistration
(`storage_unregister` from `impl_fungible_token_storage!`, src line 143, whose
body lives in the library outside `src/`). Per spec §4.1 `unregister`: only
permitted when the balance is exactly zero, failing with `accountNotEmpty`
otherwise; removes the entry. Unregistering an absent account is a no-op
(the library logs and returns `false`). -/
def storage_unregister (c : Contract) (account_id : String) :
    Except FtError Contract :=
  match getBal c.token.accounts account_id with
  | none => .ok c
  | some bal =>
    if bal = 0 then
      .ok { c with token := { c.token with
              accounts := removeAcc c.token.accounts account_id } }
    else .error .accountNotEmpty

/-- Backing-store usage proxy. Modelled from the spec (§3): an account's storage
footprint is one entry per registered account, so byte usage is proportional to
the number of entries in the Account Store. -/
def storageUsage (c : Contract) : Nat :=
  c.token.accounts.length

/-- NEAR's storage price per byte in yoctoNEAR (`env::storage_byte_cost()`),
the `price_per_byte` of spec §4.4. -/
def price_per_byte : Nat := 10 ^ 19

/-- One public-verb transition between contract states: some call of a mutating
verb succeeded, taking the pre-state to the post-state. -/
inductive Step : Contract → Contract → Prop
  | mint_step (ctx : Ctx) (c c' : Contract) (a : String) (amt r : Nat)
      (h : mint ctx c a amt = .ok (c', r)) : Step c c'
  | burn_step (ctx : Ctx) (c c' : Contract) (a : String) (amt : Nat)
      (ev : List HookEvent)
      (h : burn ctx c a amt = .ok (c', ev)) : Step c c'
  | transfer_step (ctx : Ctx) (c c' : Contract) (receiver : String) (amt : Nat)
      (h : ft_transfer ctx c receiver amt = .ok c') : Step c c'
  | set_owner_step (ctx : Ctx) (c c' : Contract) (o o' : String)
      (h : set_owner ctx c o = .ok (c', o')) : Step c c'
  | set_max_step (ctx : Ctx) (c c' : Contract) (m : Nat)
      (h : change_max_supply ctx c m = .ok c') : Step c c'
  | register_step (c c' : Contract) (a : String)
      (h : storage_register c a = c') : Step c c'
  | unregister_step (c c' : Contract) (a : String)
      (h : storage_unregister c a = .ok c') : Step c c'

/-- Contract states reachable from initialization through the public verbs. -/
inductive Reachable : Contract → Prop
  | init (owner : String) (meta : FungibleTokenMetadata) (max : Nat) :
      Reachable (Contract.new owner meta max)
  | step (c c' : Contract) (hr : Reachable c) (hs : Step c c') : Reachable c'

/-- Structural well-formedness of the token ledger: the account map has
duplicate-free keys and `total_supply` equals the sum of all balances. -/
def TokWF (tok : FungibleToken) : Prop :=
  (tok.accounts.map Prod.fst).Nodup ∧ tok.total_supply = sumBal tok.accounts

/-- Structural well-formedness maintained by every verb: the account map has
duplicate-free keys and `total_supply` equals the sum of all balances. -/
def WF (c : Contract) : Prop :=
  TokWF c.token

/-- The metadata record used by the contract's own test (`test_basics`,
src lines 165-175); concrete instances below use it. -/
def exampleMeta : FungibleTokenMetadata :=
  { spec_version := "ft-1.0.0", name := "ZEUS", symbol := "zeus",
    icon := none, decimals := 8 }

/-- Concrete state: one account `"a"` holding 1,000,000 with the cap equally at
1,000,000 — the result of the spec's mint-monotonicity scenario and the
pre-state of its cap-enforcement scenario. -/
def fullCap : Contract :=
  { token := { accounts := [("a", 1000000)], total_supply := 1000000 },
    owner_id := "o", metadata := exampleMeta, max_supply := 1000000 }

/-- Concrete state: supply 100 at cap 100, before the cap is lowered. -/
def midCap : Contract :=
  { token := { accounts := [("alice", 100)], total_supply := 100 },
    owner_id := "owner", metadata := exampleMeta, max_supply := 100 }

/-- Concrete state: supply 100 with the cap lowered to 50. -/
def overCap : Contract :=
  { token := { accounts := [("alice", 100)], total_supply := 100 },
    owner_id := "owner", metadata := exampleMeta, max_supply := 50 }

/-- Concrete state: the result of minting 5 to the fresh account `"alice"` on a
newly initialized contract with cap 1000. -/
def grownState : Contract :=
  { token := { accounts := [("alice", 5)], total_supply := 5 },
    owner_id := "owner", metadata := exampleMeta, max_supply := 1000 }

/-- Concrete state: one account `"b"` holding 50 of a supply of 50. -/
def fifty : Contract :=
  { token := { accounts := [("b", 50)], total_supply := 50 },
    owner_id := "o", metadata := exampleMeta, max_supply := 100 }

/-- Concrete state: `fifty` after burning 20 from `"b"`. -/
def thirty : Contract :=
  { token := { accounts := [("b", 30)], total_supply := 30 },
    owner_id := "o", metadata := exampleMeta, max_supply := 100 }

/-- Concrete state: accounts `"a"` (1000) and `"b"` (0), the spec's
transfer-conservation scenario. -/
def twoAccounts : Contract :=
  { token := { accounts := [("a", 1000), ("b", 0)], total_supply := 1000 },
    owner_id := "o", metadata := exampleMeta, max_supply := 2000 }

/-- Concrete state: `twoAccounts` after transferring 400 from `"a"` to `"b"`. -/
def twoAccountsMoved : Contract :=
  { token := { accounts := [("a", 600), ("b", 400)], total_supply := 1000 },
    owner_id := "o", metadata := exampleMeta, max_supply := 2000 }

/-! ### Association-list lemmas -/

theorem getBal_eq_none (l : List (String × Nat)) (a : String)
    (h : getBal l a = none) : a ∉ l.map Prod.fst := by
  induction l with
  | nil => simp
  | cons p rest ih =>
    obtain ⟨b, v⟩ := p
    by_cases hba : b = a
    · simp [getBal, hba] at h
    · simp only [getBal, if_neg hba] at h
      simp only [List.map_cons, List.mem_cons]
      rintro (rfl | hmem)
      · exact hba rfl
      · exact ih h hmem

theorem getBal_of_not_mem (l : List (String × Nat)) (a : String)
    (h : a ∉ l.map Prod.fst) : getBal l a = none := by
  induction l with
  | nil => rfl
  | cons p rest ih =>
    obtain ⟨b, v⟩ := p
    simp only [List.map_cons, List.mem_cons, not_or] at h
    obtain ⟨h1, h2⟩ := h
    have hba : ¬ b = a := fun hba => h1 hba.symm
    simp only [getBal, if_neg hba]
    exact ih h2

theorem updateBal_cons (k : String) (w : Nat) (rest : List (String × Nat))
    (a : String) (v : Nat) :
    updateBal ((k, w) :: rest) a v =
      (if k = a then (k, v) else (k, w)) :: updateBal rest a v := by
  by_cases hka : k = a
  · simp only [updateBal, List.map_cons, if_pos hka]
  · simp only [updateBal, List.map_cons, if_neg hka]

theorem updateBal_of_not_mem (l : List (String × Nat)) (a : String) (v : Nat)
    (h : a ∉ l.map Prod.fst) : updateBal l a v = l := by
  induction l with
  | nil => rfl
  | cons p rest ih =>
    obtain ⟨b, w⟩ := p
    simp only [List.map_cons, List.mem_cons] at h
    push_neg at h
    simp only [updateBal, List.map_cons]
    rw [if_neg (fun hba => h.1 hba.symm)]
    have := ih h.2
    simp only [updateBal] at this
    rw [this]

theorem keys_updateBal (l : List (String × Nat)) (a : String) (v : Nat) :
    (updateBal l a v).map Prod.fst = l.map Prod.fst := by
  induction l with
  | nil => rfl
  | cons p rest ih =>
    obtain ⟨b, w⟩ := p
    simp only [updateBal, List.map_cons] at ih ⊢
    by_cases hba : b = a
    · simp [hba, ih]
    · simp [hba, ih]

theorem sumBal_updateBal (l : List (String × Nat)) (a : String) (v b : Nat)
    (hnd : (l.map Prod.fst).Nodup) (hget : getBal l a = some b) :
    sumBal (updateBal l a v) + b = sumBal l + v := by
  induction l with
  | nil => simp [getBal] at hget
  | cons p rest ih =>
    obtain ⟨k, w⟩ := p
    simp only [List.map_cons, List.nodup_cons] at hnd
    by_cases hka : k = a
    · simp only [getBal, if_pos hka] at hget
      obtain rfl : w = b := by injection hget
      have hnm : a ∉ rest.map Prod.fst := hka ▸ hnd.1
      simp only [updateBal, List.map_cons, if_pos hka]
      have hrest : updateBal rest a v = rest := updateBal_of_not_mem rest a v hnm
      simp only [updateBal] at hrest
      rw [hrest]
      simp only [sumBal, List.map_cons, List.sum_cons]
      omega
    · simp only [getBal, if_neg hka] at hget
      have := ih hnd.2 hget
      simp only [updateBal, List.map_cons, if_neg hka] at this ⊢
      simp only [sumBal, List.map_cons, List.sum_cons] at this ⊢
      omega

theorem getBal_updateBal_self (l : List (String × Nat)) (a : String) (v b : Nat)
    (hget : getBal l a = some b) :
    getBal (updateBal l a v) a = some v := by
  induction l with
  | nil => simp [getBal] at hget
  | cons p rest ih =>
    obtain ⟨k, w⟩ := p
    rw [updateBal_cons]
    by_cases hka : k = a
    · rw [if_pos hka]
      simp only [getBal, if_pos hka]
    · rw [if_neg hka]
      simp only [getBal, if_neg hka] at hget ⊢
      exact ih hget

theorem getBal_updateBal_ne (l : List (String × Nat)) (a x : String) (v : Nat)
    (hne : x ≠ a) : getBal (updateBal l a v) x = getBal l x := by
  induction l with
  | nil => rfl
  | cons p rest ih =>
    obtain ⟨k, w⟩ := p
    rw [updateBal_cons]
    by_cases hka : k = a
    · have hkx : ¬ k = x := fun h => hne (h ▸ hka ▸ rfl)
      rw [if_pos hka]
      simp only [getBal, if_neg hkx]
      exact ih
    · rw [if_neg hka]
      by_cases hkx : k = x
      · simp only [getBal, if_pos hkx]
      · simp only [getBal, if_neg hkx]
        exact ih

theorem getBal_le_sumBal (l : List (String × Nat)) (a : String) (b : Nat)
    (hget : getBal l a = some b) : b ≤ sumBal l := by
  induction l with
  | nil => simp [getBal] at hget
  | cons p rest ih =>
    obtain ⟨k, w⟩ := p
    simp only [sumBal, List.map_cons, List.sum_cons]
    by_cases hka : k = a
    · simp only [getBal, if_pos hka] at hget
      obtain rfl : w = b := by injection hget
      omega
    · simp only [getBal, if_neg hka] at hget
      have := ih hget
      simp only [sumBal] at this
      omega

theorem sumBal_append_zero (l : List (String × Nat)) (a : String) :
    sumBal (l ++ [(a, 0)]) = sumBal l := by
  simp [sumBal]

theorem keys_append_zero_nodup (l : List (String × Nat)) (a : String)
    (hnd : (l.map Prod.fst).Nodup) (hnm : a ∉ l.map Prod.fst) :
    ((l ++ [(a, 0)]).map Prod.fst).Nodup := by
  rw [List.map_append]
  refine List.Nodup.append hnd (List.nodup_singleton a) ?_
  intro x hx hx'
  simp only [List.map_cons, List.map_nil, List.mem_singleton] at hx'
  exact hnm (hx' ▸ hx)

theorem removeAcc_sublist (l : List (String × Nat)) (a : String) :
    (removeAcc l a).Sublist l := by
  induction l with
  | nil => simp [removeAcc]
  | cons p rest ih =>
    obtain ⟨k, w⟩ := p
    by_cases hka : k = a
    · simp only [removeAcc, if_pos hka]
      exact List.sublist_cons_self (k, w) rest
    · simpa [removeAcc, hka] using List.Sublist.cons₂ (k, w) ih

theorem keys_removeAcc_nodup (l : List (String × Nat)) (a : String)
    (hnd : (l.map Prod.fst).Nodup) :
    ((removeAcc l a).map Prod.fst).Nodup :=
  List.Nodup.sublist (List.Sublist.map Prod.fst (removeAcc_sublist l a)) hnd

theorem sumBal_removeAcc (l : List (String × Nat)) (a : String) (b : Nat)
    (hget : getBal l a = some b) :
    sumBal (removeAcc l a) + b = sumBal l := by
  induction l with
  | nil => simp [getBal] at hget
  | cons p rest ih =>
    obtain ⟨k, w⟩ := p
    by_cases hka : k = a
    · simp only [getBal, if_pos hka] at hget
      obtain rfl : w = b := by injection hget
      simp only [removeAcc, if_pos hka, sumBal, List.map_cons, List.sum_cons]
      omega
    · simp only [getBal, if_neg hka] at hget
      have := ih hget
      simp only [removeAcc, if_neg hka, sumBal, List.map_cons, List.sum_cons] at this ⊢
      omega

/-! ### Inversion lemmas for the token-library operations -/

theorem internal_deposit_ok (tok tok' : FungibleToken) (a : String)
    (amount : Nat) (h : internal_deposit tok a amount = .ok tok') :
    ∃ bal, getBal tok.accounts a = some bal ∧
      bal + amount ≤ U128_MAX ∧
      tok.total_supply + amount ≤ U128_MAX ∧
      tok'.accounts = updateBal tok.accounts a (bal + amount) ∧
      tok'.total_supply = tok.total_supply + amount := by
  unfold internal_deposit at h
  split at h
  · exact absurd h (by simp)
  · rename_i bal hg
    split at h
    · split at h
      · rename_i h1 h2
        injection h with h'
        exact ⟨bal, hg, h1, h2, by rw [← h'], by rw [← h']⟩
      · exact absurd h (by simp)
    · exact absurd h (by simp)

theorem internal_withdraw_ok (tok tok' : FungibleToken) (a : String)
    (amount : Nat) (h : internal_withdraw tok a amount = .ok tok') :
    ∃ bal, getBal tok.accounts a = some bal ∧
      amount ≤ bal ∧
      amount ≤ tok.total_supply ∧
      tok'.accounts = updateBal tok.accounts a (bal - amount) ∧
      tok'.total_supply = tok.total_supply - amount := by
  unfold internal_withdraw at h
  split at h
  · exact absurd h (by simp)
  · rename_i bal hg
    split at h
    · split at h
      · rename_i h1 h2
        injection h with h'
        exact ⟨bal, hg, h1, h2, by rw [← h'], by rw [← h']⟩
      · exact absurd h (by simp)
    · exact absurd h (by simp)

theorem internal_transfer_ok (tok tok' : FungibleToken) (sender receiver : String)
    (amount : Nat) (h : internal_transfer tok sender receiver amount = .ok tok') :
    sender ≠ receiver ∧ amount ≠ 0 ∧
      ∃ tok1, internal_withdraw tok sender amount = .ok tok1 ∧
        internal_deposit tok1 receiver amount = .ok tok' := by
  unfold internal_transfer at h
  split at h
  · exact absurd h (by simp)
  · split at h
    · exact absurd h (by simp)
    · rename_i h1 h2
      split at h
      · exact absurd h (by simp)
      · rename_i tok1 hw
        exact ⟨h1, h2, tok1, hw, h⟩

theorem mint_ok (ctx : Ctx) (c c' : Contract) (a : String) (amt r : Nat)
    (h : mint ctx c a amt = .ok (c', r)) :
    r = amt ∧ ctx.predecessor = c.owner_id ∧
      c.token.total_supply + amt ≤ U128_MAX ∧
      c.token.total_supply + amt ≤ c.max_supply ∧
      internal_deposit
        (if getBal c.token.accounts a = none then
          internal_register_account c.token a
        else c.token) a amt = .ok c'.token ∧
      c'.owner_id = c.owner_id ∧ c'.metadata = c.metadata ∧
      c'.max_supply = c.max_supply := by
  unfold mint at h
  split at h
  · rename_i h1
    split at h
    · rename_i h2
      split at h
      · rename_i h3
        split at h
        · rename_i tok2 hd
          injection h with h'
          injection h' with hc hr
          subst hc
          subst hr
          exact ⟨rfl, h1, h2, h3, hd, rfl, rfl, rfl⟩
        · exact absurd h (by simp)
      · exact absurd h (by simp)
    · exact absurd h (by simp)
  · exact absurd h (by simp)

theorem assert_one_yocto_ok (ctx : Ctx) (u : Unit)
    (h : assert_one_yocto ctx = .ok u) : ctx.deposit = 1 := by
  unfold assert_one_yocto at h
  split at h
  · assumption
  · exact absurd h (by simp)

theorem assert_one_yocto_not_one (ctx : Ctx) (h : ctx.deposit ≠ 1) :
    assert_one_yocto ctx = .error .invalidAttachedDeposit := by
  unfold assert_one_yocto
  rw [if_neg h]

theorem burn_ok (ctx : Ctx) (c c' : Contract) (a : String) (amt : Nat)
    (ev : List HookEvent) (h : burn ctx c a amt = .ok (c', ev)) :
    ctx.deposit = 1 ∧ ctx.predecessor = c.owner_id ∧ ev = [] ∧
      internal_withdraw c.token a amt = .ok c'.token ∧
      c'.owner_id = c.owner_id ∧ c'.metadata = c.metadata ∧
      c'.max_supply = c.max_supply := by
  unfold burn at h
  split at h
  · exact absurd h (by simp)
  · rename_i u hu
    have hdep := assert_one_yocto_ok ctx u hu
    split at h
    · rename_i h1
      split at h
      · rename_i tok hw
        injection h with h'
        injection h' with hc he
        subst hc
        exact ⟨hdep, h1, he.symm, hw, rfl, rfl, rfl⟩
      · exact absurd h (by simp)
    · exact absurd h (by simp)

theorem ft_transfer_ok (ctx : Ctx) (c c' : Contract) (receiver : String)
    (amt : Nat) (h : ft_transfer ctx c receiver amt = .ok c') :
    ctx.deposit = 1 ∧
      internal_transfer c.token ctx.predecessor receiver amt = .ok c'.token ∧
      c'.owner_id = c.owner_id ∧ c'.metadata = c.metadata ∧
      c'.max_supply = c.max_supply := by
  unfold ft_transfer at h
  split at h
  · exact absurd h (by simp)
  · rename_i u hu
    have hdep := assert_one_yocto_ok ctx u hu
    split at h
    · rename_i tok ht
      injection h with h'
      subst h'
      exact ⟨hdep, ht, rfl, rfl, rfl⟩
    · exact absurd h (by simp)

theorem set_owner_ok (ctx : Ctx) (c c' : Contract) (o o' : String)
    (h : set_owner ctx c o = .ok (c', o')) :
    ctx.predecessor = c.owner_id ∧ o' = o ∧ c'.token = c.token ∧
      c'.owner_id = o ∧ c'.metadata = c.metadata ∧
      c'.max_supply = c.max_supply := by
  unfold set_owner at h
  split at h
  · rename_i h1
    injection h with h'
    injection h' with hc ho
    subst hc
    exact ⟨h1, ho.symm, rfl, rfl, rfl, rfl⟩
  · exact absurd h (by simp)

theorem change_max_supply_ok (ctx : Ctx) (c c' : Contract) (m : Nat)
    (h : change_max_supply ctx c m = .ok c') :
    ctx.deposit = 1 ∧ ctx.predecessor = c.owner_id ∧ c'.token = c.token ∧
      c'.owner_id = c.owner_id ∧ c'.metadata = c.metadata ∧
      c'.max_supply = m := by
  unfold change_max_supply at h
  split at h
  · exact absurd h (by simp)
  · rename_i u hu
    have hdep := assert_one_yocto_ok ctx u hu
    split at h
    · rename_i h1
      injection h with h'
      subst h'
      exact ⟨hdep, h1, rfl, rfl, rfl, rfl⟩
    · exact absurd h (by simp)

theorem storage_unregister_ok (c c' : Contract) (a : String)
    (h : storage_unregister c a = .ok c') :
    (getBal c.token.accounts a = none ∧ c' = c) ∨
      (getBal c.token.accounts a = some 0 ∧
        c'.token.accounts = removeAcc c.token.accounts a ∧
        c'.token.total_supply = c.token.total_supply ∧
        c'.owner_id = c.owner_id ∧ c'.metadata = c.metadata ∧
        c'.max_supply = c.max_supply) := by
  unfold storage_unregister at h
  split at h
  · rename_i hg
    injection h with h'
    exact Or.inl ⟨hg, h'.symm⟩
  · rename_i bal hg
    split at h
    · rename_i hz
      subst hz
      injection h with h'
      subst h'
      exact Or.inr ⟨hg, rfl, rfl, rfl, rfl, rfl⟩
    · exact absurd h (by simp)

/-! ### Preservation of ledger well-formedness -/

theorem TokWF_deposit (tok tok' : FungibleToken) (a : String) (amount : Nat)
    (hwf : TokWF tok) (h : internal_deposit tok a amount = .ok tok') :
    TokWF tok' := by
  obtain ⟨bal, hg, _, _, hacc, htot⟩ := internal_deposit_ok tok tok' a amount h
  obtain ⟨hnd, hsum⟩ := hwf
  constructor
  · rw [hacc, keys_updateBal]
    exact hnd
  · have hs := sumBal_updateBal tok.accounts a (bal + amount) bal hnd hg
    rw [hacc, htot]
    omega

theorem TokWF_withdraw (tok tok' : FungibleToken) (a : String) (amount : Nat)
    (hwf : TokWF tok) (h : internal_withdraw tok a amount = .ok tok') :
    TokWF tok' := by
  obtain ⟨bal, hg, h1, h2, hacc, htot⟩ := internal_withdraw_ok tok tok' a amount h
  obtain ⟨hnd, hsum⟩ := hwf
  constructor
  · rw [hacc, keys_updateBal]
    exact hnd
  · have hs := sumBal_updateBal tok.accounts a (bal - amount) bal hnd hg
    have hble := getBal_le_sumBal tok.accounts a bal hg
    rw [hacc, htot]
    omega

theorem TokWF_register (tok : FungibleToken) (a : String)
    (hwf : TokWF tok) (hg : getBal tok.accounts a = none) :
    TokWF (internal_register_account tok a) := by
  obtain ⟨hnd, hsum⟩ := hwf
  constructor
  · exact keys_append_zero_nodup tok.accounts a hnd (getBal_eq_none tok.accounts a hg)
  · show tok.total_supply = sumBal (tok.accounts ++ [(a, 0)])
    rw [sumBal_append_zero]
    exact hsum

theorem TokWF_register_if_absent (tok : FungibleToken) (a : String)
    (hwf : TokWF tok) :
    TokWF (if getBal tok.accounts a = none then
      internal_register_account tok a else tok) := by
  by_cases hg : getBal tok.accounts a = none
  · rw [if_pos hg]
    exact TokWF_register tok a hwf hg
  · rw [if_neg hg]
    exact hwf

theorem TokWF_transfer (tok tok' : FungibleToken) (sender receiver : String)
    (amount : Nat) (hwf : TokWF tok)
    (h : internal_transfer tok sender receiver amount = .ok tok') :
    TokWF tok' := by
  obtain ⟨-, -, tok1, hw, hd⟩ := internal_transfer_ok tok tok' sender receiver amount h
  exact TokWF_deposit tok1 tok' receiver amount
    (TokWF_withdraw tok tok1 sender amount hwf hw) hd

theorem WF_step (c c' : Contract) (hwf : WF c) (hs : Step c c') : WF c' := by
  cases hs with
  | mint_step ctx _ _ a amt r h =>
    obtain ⟨-, -, -, -, hd, -, -, -⟩ := mint_ok ctx c c' a amt r h
    exact TokWF_deposit _ c'.token a amt (TokWF_register_if_absent c.token a hwf) hd
  | burn_step ctx _ _ a amt ev h =>
    obtain ⟨-, -, -, hw, -, -, -⟩ := burn_ok ctx c c' a amt ev h
    exact TokWF_withdraw c.token c'.token a amt hwf hw
  | transfer_step ctx _ _ receiver amt h =>
    obtain ⟨-, ht, -, -, -⟩ := ft_transfer_ok ctx c c' receiver amt h
    exact TokWF_transfer c.token c'.token ctx.predecessor receiver amt hwf ht
  | set_owner_step ctx _ _ o o' h =>
    obtain ⟨-, -, htok, -, -, -⟩ := set_owner_ok ctx c c' o o' h
    unfold WF
    rw [htok]
    exact hwf
  | set_max_step ctx _ _ m h =>
    obtain ⟨-, -, htok, -, -, -⟩ := change_max_supply_ok ctx c c' m h
    unfold WF
    rw [htok]
    exact hwf
  | register_step _ _ a h =>
    subst h
    unfold storage_register
    by_cases hg : getBal c.token.accounts a = none
    · rw [if_pos hg]
      exact TokWF_register c.token a hwf hg
    · rw [if_neg hg]
      exact hwf
  | unregister_step _ _ a h =>
    rcases storage_unregister_ok c c' a h with ⟨-, rfl⟩ | ⟨hg, hacc, htot, -, -, -⟩
    · exact hwf
    · obtain ⟨hnd, hsum⟩ := hwf
      constructor
      · rw [hacc]
        exact keys_removeAcc_nodup c.token.accounts a hnd
      · have hs := sumBal_removeAcc c.token.accounts a 0 hg
        rw [hacc, htot]
        omega

theorem reachable_WF (c : Contract) (hr : Reachable c) : WF c := by
  induction hr with
  | init owner meta max => exact ⟨List.nodup_nil, rfl⟩
  | step c c' hr hs ih => exact WF_step c c' ih hs

/-! ### Error-path lemmas for the public verbs -/

theorem getBal_append_self (l : List (String × Nat)) (a : String)
    (h : getBal l a = none) : getBal (l ++ [(a, 0)]) a = some 0 := by
  induction l with
  | nil => simp [getBal]
  | cons p rest ih =>
    obtain ⟨k, w⟩ := p
    by_cases hka : k = a
    · simp only [getBal, if_pos hka] at h
      exact Option.noConfusion h
    · simp only [getBal, if_neg hka] at h
      simp only [List.cons_append, getBal, if_neg hka]
      exact ih h

theorem mint_not_owner (ctx : Ctx) (c : Contract) (a : String) (amt : Nat)
    (h : ctx.predecessor ≠ c.owner_id) :
    mint ctx c a amt = .error .notAuthorized := by
  unfold mint
  rw [if_neg h]

theorem set_owner_not_owner (ctx : Ctx) (c : Contract) (o : String)
    (h : ctx.predecessor ≠ c.owner_id) :
    set_owner ctx c o = .error .notAuthorized := by
  unfold set_owner
  rw [if_neg h]

theorem burn_wrong_deposit (ctx : Ctx) (c : Contract) (a : String) (amt : Nat)
    (h : ctx.deposit ≠ 1) :
    burn ctx c a amt = .error .invalidAttachedDeposit := by
  unfold burn
  rw [assert_one_yocto_not_one ctx h]

theorem burn_one_yocto_not_owner (ctx : Ctx) (c : Contract) (a : String)
    (amt : Nat) (hdep : ctx.deposit = 1) (h : ctx.predecessor ≠ c.owner_id) :
    burn ctx c a amt = .error .notAuthorized := by
  have hy : assert_one_yocto ctx = .ok () := by
    unfold assert_one_yocto
    rw [if_pos hdep]
  unfold burn
  simp only [hy]
  rw [if_neg h]

theorem change_max_supply_wrong_deposit (ctx : Ctx) (c : Contract) (m : Nat)
    (h : ctx.deposit ≠ 1) :
    change_max_supply ctx c m = .error .invalidAttachedDeposit := by
  unfold change_max_supply
  rw [assert_one_yocto_not_one ctx h]

theorem change_max_supply_one_yocto_not_owner (ctx : Ctx) (c : Contract)
    (m : Nat) (hdep : ctx.deposit = 1) (h : ctx.predecessor ≠ c.owner_id) :
    change_max_supply ctx c m = .error .notAuthorized := by
  have hy : assert_one_yocto ctx = .ok () := by
    unfold assert_one_yocto
    rw [if_pos hdep]
  unfold change_max_supply
  simp only [hy]
  rw [if_neg h]

theorem internal_transfer_total (tok tok' : FungibleToken)
    (sender receiver : String) (amount : Nat)
    (h : internal_transfer tok sender receiver amount = .ok tok') :
    tok'.total_supply = tok.total_supply := by
  obtain ⟨-, -, tok1, hw, hd⟩ :=
    internal_transfer_ok tok tok' sender receiver amount h
  obtain ⟨b1, -, -, hle, -, ht1⟩ := internal_withdraw_ok tok tok1 sender amount hw
  obtain ⟨b2, -, -, -, -, ht2⟩ := internal_deposit_ok tok1 tok' receiver amount hd
  omega

/-! ### Claim theorems -/

/-- C1 (counterexample): the claim "for every reachable state, `total_supply ≤
max_supply`" is false. The state `overCap` — produced by
`new(owner := "owner", cap := 100)`, then `mint("alice", 100)` by the owner,
then `change_max_supply(50)` by the owner with one yocto attached — is
reachable, yet its `total_supply` (100) exceeds its `max_supply` (50):
`change_max_supply` (src lines 123-131) replaces the cap with no guard against
the current supply. -/
theorem supply_cap_not_invariant_cex :
    Reachable overCap ∧ ¬ overCap.token.total_supply ≤ overCap.max_supply := by
  constructor
  · have h0 : Reachable (Contract.new "owner" exampleMeta 100) :=
      Reachable.init "owner" exampleMeta 100
    have h1 : mint ⟨"owner", 0⟩ (Contract.new "owner" exampleMeta 100)
        "alice" 100 = .ok (midCap, 100) := by decide
    have h2 : change_max_supply ⟨"owner", 1⟩ midCap 50 = .ok overCap := by
      decide
    exact Reachable.step _ _
      (Reachable.step _ _ h0 (Step.mint_step _ _ _ _ _ _ h1))
      (Step.set_max_step _ _ _ _ h2)
  · decide

/-- C1, amended: for every state reachable from initialization through the
public verbs (mint, burn, transfer, set_owner, set_max_supply, storage
registration/unregistration), `total_supply` equals the sum of all account
balances; moreover every verb step that leaves the cap unchanged preserves
`total_supply ≤ max_supply`. The original claim's unconditional
`total_supply ≤ max_supply` is not an invariant, because `change_max_supply`
can set the cap below the current supply (see the counterexample). -/
theorem supply_eq_sum_invariant :
    (∀ c : Contract, Reachable c →
      c.token.total_supply = sumBal c.token.accounts) ∧
    (∀ c c' : Contract, Step c c' → c'.max_supply = c.max_supply →
      c.token.total_supply ≤ c.max_supply →
      c'.token.total_supply ≤ c'.max_supply) := by
  constructor
  · intro c hr
    exact (reachable_WF c hr).2
  · intro c c' hs hmax hle
    rw [hmax]
    cases hs with
    | mint_step ctx _ _ a amt r h =>
      obtain ⟨-, -, -, h3, hd, -, -, -⟩ := mint_ok ctx c c' a amt r h
      obtain ⟨bal, -, -, -, -, htot⟩ := internal_deposit_ok _ c'.token a amt hd
      have hsame : (if getBal c.token.accounts a = none then
          internal_register_account c.token a
        else c.token).total_supply = c.token.total_supply := by
        by_cases hg : getBal c.token.accounts a = none
        · rw [if_pos hg]
          rfl
        · rw [if_neg hg]
      rw [hsame] at htot
      omega
    | burn_step ctx _ _ a amt ev h =>
      obtain ⟨-, -, -, hw, -, -, -⟩ := burn_ok ctx c c' a amt ev h
      obtain ⟨bal, -, -, -, -, htot⟩ := internal_withdraw_ok _ c'.token a amt hw
      omega
    | transfer_step ctx _ _ receiver amt h =>
      obtain ⟨-, ht, -, -, -⟩ := ft_transfer_ok ctx c c' receiver amt h
      have htot := internal_transfer_total _ _ _ _ _ ht
      omega
    | set_owner_step ctx _ _ o o' h =>
      obtain ⟨-, -, htok, -, -, -⟩ := set_owner_ok ctx c c' o o' h
      rw [htok]
      exact hle
    | set_max_step ctx _ _ m h =>
      obtain ⟨-, -, htok, -, -, -⟩ := change_max_supply_ok ctx c c' m h
      rw [htok]
      exact hle
    | register_step _ _ a h =>
      subst h
      unfold storage_register
      by_cases hg : getBal c.token.accounts a = none
      · rw [if_pos hg]
        exact hle
      · rw [if_neg hg]
        exact hle
    | unregister_step _ _ a h =>
      rcases storage_unregister_ok c c' a h with ⟨-, rfl⟩ | ⟨-, -, htot, -, -, -⟩
      · exact hle
      · rw [htot]
        exact hle

/-- C1 witness: the amended invariant evaluated on the concrete reachable state
reached by initializing with owner `"o"` and cap 7. -/
theorem supply_eq_sum_invariant_witness :
    (Contract.new "o" exampleMeta 7).token.total_supply =
      sumBal (Contract.new "o" exampleMeta 7).token.accounts :=
  supply_eq_sum_invariant.1 (Contract.new "o" exampleMeta 7)
    (Reachable.init "o" exampleMeta 7)

/-- C2 (code_bug evaluation): `mint` is not wrapped by storage accounting. On a
fresh contract, the owner's `mint("alice", 5)` with zero attached payment
succeeds and registers the target account, growing the backing store by one
entry, even though the attached payment (0) is below the storage cost of any
positive growth — the call never measures storage usage, never fails with
`StorageDepositInsufficient`, and refunds nothing (src lines 93-110: the body
consults no deposit; the commented-out `// assert_one_yocto()` is its only
trace of a payment check). This contradicts the crate's own header comment
(src lines 8-14), which promises that storage growth requires an attached
deposit covering its cost. -/
theorem mint_unpaid_storage_growth :
    mint ⟨"owner", 0⟩ (Contract.new "owner" exampleMeta 1000) "alice" 5 =
      .ok (grownState, 5) ∧
    storageUsage grownState =
      storageUsage (Contract.new "owner" exampleMeta 1000) + 1 ∧
    (⟨"owner", 0⟩ : Ctx).deposit <
      (storageUsage grownState -
        storageUsage (Contract.new "owner" exampleMeta 1000)) *
        price_per_byte :=
  ⟨by decide, by decide, by decide⟩

/-- C3: when the owner calls `mint` and `total_supply + amount` exceeds
`max_supply` or `2^128 - 1`, the call fails with `Overflow` (src lines
101-102: `checked_add(..).unwrap()` aborts past the numeric range, and
`assert!(next_total_supply <= max_supply, "Overflow")` aborts past the cap).
In this embedding an aborting call returns `Except.error` and produces no
successor state, which is exactly NEAR's transaction rollback: every account
balance and `total_supply` are left unchanged. -/
theorem mint_overflow_aborts (ctx : Ctx) (c : Contract) (a : String)
    (amt : Nat) (hown : ctx.predecessor = c.owner_id)
    (hover : c.max_supply < c.token.total_supply + amt ∨
      U128_MAX < c.token.total_supply + amt) :
    mint ctx c a amt = .error .overflow := by
  unfold mint
  rw [if_pos hown]
  by_cases h2 : c.token.total_supply + amt ≤ U128_MAX
  · rw [if_pos h2]
    have h3 : ¬ c.token.total_supply + amt ≤ c.max_supply := by
      cases hover with
      | inl h => omega
      | inr h => omega
    rw [if_neg h3]
  · rw [if_neg h2]

/-- C3 witness: the spec's cap-enforcement scenario. With `max_supply =
1,000,000` and `total_supply = 1,000,000` (state `fullCap`), the owner's
`mint("a", 1)` fails with `Overflow`. -/
theorem mint_overflow_aborts_witness :
    mint ⟨"o", 0⟩ fullCap "a" 1 = .error .overflow :=
  mint_overflow_aborts ⟨"o", 0⟩ fullCap "a" 1 (by decide)
    (Or.inl (by decide))

/-- C4 (counterexample): the claim "every non-owner call of mint, burn,
set_owner, or set_max_supply fails with `NotAuthorized`" is false for `burn`:
the non-owner `"eve"` calling `burn("b", 1)` with zero attached deposit fails
with `InvalidAttachedDeposit`, not `NotAuthorized`, because `assert_one_yocto()`
runs before the owner check (src lines 112-118). -/
theorem nonowner_burn_wrong_deposit_cex :
    ("eve" : String) ≠ fifty.owner_id ∧
    burn ⟨"eve", 0⟩ fifty "b" 1 = .error .invalidAttachedDeposit ∧
    burn ⟨"eve", 0⟩ fifty "b" 1 ≠ .error .notAuthorized :=
  ⟨by decide, by decide, by decide⟩

/-- C4, amended: every call of mint, burn, set_owner, or set_max_supply by a
non-owner fails and mutates nothing (an error result carries no successor
state). `mint` and `set_owner` fail with `NotAuthorized`; `burn` and
`set_max_supply` fail with `NotAuthorized` when exactly one yocto is attached,
and with `InvalidAttachedDeposit` otherwise, because their `assert_one_yocto()`
precedes the owner check. -/
theorem nonowner_calls_fail (ctx : Ctx) (c : Contract) (a o : String)
    (amt m : Nat) (hown : ctx.predecessor ≠ c.owner_id) :
    mint ctx c a amt = .error .notAuthorized ∧
    set_owner ctx c o = .error .notAuthorized ∧
    (ctx.deposit = 1 → burn ctx c a amt = .error .notAuthorized) ∧
    (ctx.deposit ≠ 1 → burn ctx c a amt = .error .invalidAttachedDeposit) ∧
    (ctx.deposit = 1 → change_max_supply ctx c m = .error .notAuthorized) ∧
    (ctx.deposit ≠ 1 →
      change_max_supply ctx c m = .error .invalidAttachedDeposit) :=
  ⟨mint_not_owner ctx c a amt hown,
    set_owner_not_owner ctx c o hown,
    fun hdep => burn_one_yocto_not_owner ctx c a amt hdep hown,
    fun hdep => burn_wrong_deposit ctx c a amt hdep,
    fun hdep => change_max_supply_one_yocto_not_owner ctx c m hdep hown,
    fun hdep => change_max_supply_wrong_deposit ctx c m hdep⟩

/-- C4 witness: the non-owner `"eve"` with one yocto attached is refused with
`NotAuthorized` on `mint` and on `burn` against a fresh contract. -/
theorem nonowner_calls_fail_witness :
    mint ⟨"eve", 1⟩ (Contract.new "owner" exampleMeta 100) "eve" 5 =
      .error .notAuthorized ∧
    burn ⟨"eve", 1⟩ (Contract.new "owner" exampleMeta 100) "eve" 5 =
      .error .notAuthorized := by
  have h := nonowner_calls_fail ⟨"eve", 1⟩ (Contract.new "owner" exampleMeta 100)
    "eve" "bob" 5 7 (by decide)
  exact ⟨h.1, h.2.2.1 (by decide)⟩

/-- C5 (counterexample): the claim "the owner check is performed before any
other step of the verb" is false for `set_max_supply` (and `burn`): the
non-owner `"eve"` calling `change_max_supply(7)` with zero attached deposit is
rejected by the attached-deposit check (`InvalidAttachedDeposit`), not by the
authorization check (`NotAuthorized`), because `assert_one_yocto()` is the
first statement of the body (src lines 123-129). -/
theorem deposit_check_precedes_auth_cex :
    ("eve" : String) ≠ (Contract.new "owner" exampleMeta 100).owner_id ∧
    change_max_supply ⟨"eve", 0⟩ (Contract.new "owner" exampleMeta 100) 7 =
      .error .invalidAttachedDeposit ∧
    change_max_supply ⟨"eve", 0⟩ (Contract.new "owner" exampleMeta 100) 7 ≠
      .error .notAuthorized :=
  ⟨by decide, by decide, by decide⟩

/-- C5, amended: in `mint` and `set_owner` the owner check is the first step,
so a non-owner call fails with `NotAuthorized` whatever the attached deposit
and whatever later checks would find; in `burn` and `set_max_supply` the
`assert_one_yocto()` deposit check precedes the owner check, so a call with a
wrong deposit fails with `InvalidAttachedDeposit` whoever the caller is, and a
non-owner call reaches the (failing) owner check only when exactly one yocto
is attached. In every such case the verb aborts before any storage-accounting
measurement or state mutation. -/
theorem auth_check_order (ctx : Ctx) (c : Contract) (a o : String)
    (amt m : Nat) :
    (ctx.predecessor ≠ c.owner_id →
      mint ctx c a amt = .error .notAuthorized) ∧
    (ctx.predecessor ≠ c.owner_id →
      set_owner ctx c o = .error .notAuthorized) ∧
    (ctx.deposit ≠ 1 → burn ctx c a amt = .error .invalidAttachedDeposit) ∧
    (ctx.deposit ≠ 1 →
      change_max_supply ctx c m = .error .invalidAttachedDeposit) ∧
    (ctx.deposit = 1 → ctx.predecessor ≠ c.owner_id →
      burn ctx c a amt = .error .notAuthorized) ∧
    (ctx.deposit = 1 → ctx.predecessor ≠ c.owner_id →
      change_max_supply ctx c m = .error .notAuthorized) :=
  ⟨fun hown => mint_not_owner ctx c a amt hown,
    fun hown => set_owner_not_owner ctx c o hown,
    fun hdep => burn_wrong_deposit ctx c a amt hdep,
    fun hdep => change_max_supply_wrong_deposit ctx c m hdep,
    fun hdep hown => burn_one_yocto_not_owner ctx c a amt hdep hown,
    fun hdep hown => change_max_supply_one_yocto_not_owner ctx c m hdep hown⟩

/-- C5 witness: even the owner, calling `burn` with zero attached deposit, is
stopped by the deposit check — the first check of `burn`'s body. -/
theorem auth_check_order_witness :
    burn ⟨"owner", 0⟩ (Contract.new "owner" exampleMeta 100) "a" 1 =
      .error .invalidAttachedDeposit :=
  (auth_check_order ⟨"owner", 0⟩ (Contract.new "owner" exampleMeta 100)
    "a" "b" 1 7).2.2.1 (by decide)

/-- C6: every successful `mint(account, amount)` (which requires the owner as
caller and `total_supply + amount` within cap and numeric range, src lines
93-110) leaves the target account registered — registering it first if it was
absent — with its balance increased by exactly `amount` over its previous
balance (0 if absent), increases `total_supply` by exactly `amount`, and
returns the minted amount unchanged. -/
theorem mint_success_effects (ctx : Ctx) (c c' : Contract) (a : String)
    (amt r : Nat) (h : mint ctx c a amt = .ok (c', r)) :
    r = amt ∧
    getBal c'.token.accounts a =
      some ((getBal c.token.accounts a).getD 0 + amt) ∧
    c'.token.total_supply = c.token.total_supply + amt := by
  obtain ⟨hr, -, -, -, hd, -, -, -⟩ := mint_ok ctx c c' a amt r h
  by_cases hg : getBal c.token.accounts a = none
  · rw [if_pos hg] at hd
    obtain ⟨bal, hb, -, -, hacc, htot⟩ :=
      internal_deposit_ok _ c'.token a amt hd
    have h0 : getBal (internal_register_account c.token a).accounts a =
        some 0 := getBal_append_self c.token.accounts a hg
    have hbal : bal = 0 := by
      have hq := h0.symm.trans hb
      injection hq with hq'
      exact hq'.symm
    subst hbal
    refine ⟨hr, ?_, ?_⟩
    · rw [hacc, hg]
      simp only [Option.getD_none]
      exact getBal_updateBal_self _ a _ 0 hb
    · rw [htot]
      rfl
  · rw [if_neg hg] at hd
    obtain ⟨bal, hb, -, -, hacc, htot⟩ :=
      internal_deposit_ok _ c'.token a amt hd
    refine ⟨hr, ?_, htot⟩
    rw [hacc, hb]
    simp only [Option.getD_some]
    exact getBal_updateBal_self _ a _ bal hb

/-- C6 witness: the spec's mint-monotonicity scenario — on a fresh contract
with cap 1,000,000 the owner mints 1,000,000 to the absent account `"a"`,
reaching `fullCap`: the account holds 1,000,000, `total_supply` is 1,000,000
and the call echoes 1,000,000. -/
theorem mint_success_effects_witness :
    1000000 = 1000000 ∧
    getBal fullCap.token.accounts "a" =
      some ((getBal (Contract.new "o" exampleMeta 1000000).token.accounts
        "a").getD 0 + 1000000) ∧
    fullCap.token.total_supply =
      (Contract.new "o" exampleMeta 1000000).token.total_supply + 1000000 :=
  mint_success_effects ⟨"o", 0⟩ (Contract.new "o" exampleMeta 1000000) fullCap
    "a" 1000000 1000000 (by decide)

/-- C7 (counterexample): the claim "every successful burn fires the
burned-event hook (`on_tokens_burned`) after the withdrawal and supply
decrement" is false: the owner's successful `burn("b", 20)` on state `fifty`
commits the withdrawal and the supply decrement (reaching `thirty`) but emits
no hook event at all — `burn`'s body (src lines 112-121) ends with
`internal_withdraw` and never calls `on_tokens_burned` (the
`impl_fungible_token_core!` invocation at src line 142 passes no burn hook
either). -/
theorem burn_fires_no_hook_cex :
    burn ⟨"o", 1⟩ fifty "b" 20 = .ok (thirty, []) ∧
    on_tokens_burned "b" 20 ∉ ([] : List HookEvent) :=
  ⟨by decide, by decide⟩

/-- C7, amended: every successful `burn(account, amount)` withdraws `amount`
from the account and decrements `total_supply` by `amount` (both inside
`internal_withdraw`), and fires no burned-event hook: `on_tokens_burned` is
defined but never invoked, so the emitted event list is empty. -/
theorem burn_success_effects (ctx : Ctx) (c c' : Contract) (a : String)
    (amt bal : Nat) (ev : List HookEvent)
    (h : burn ctx c a amt = .ok (c', ev))
    (hb : getBal c.token.accounts a = some bal) :
    amt ≤ bal ∧
    getBal c'.token.accounts a = some (bal - amt) ∧
    c'.token.total_supply = c.token.total_supply - amt ∧
    amt ≤ c.token.total_supply ∧
    ev = [] := by
  obtain ⟨-, -, hev, hw, -, -, -⟩ := burn_ok ctx c c' a amt ev h
  obtain ⟨bal', hb', h1, h2, hacc, htot⟩ :=
    internal_withdraw_ok _ c'.token a amt hw
  have hbb : bal = bal' := by
    have hq := hb.symm.trans hb'
    injection hq
  subst hbb
  refine ⟨h1, ?_, htot, h2, hev⟩
  rw [hacc]
  exact getBal_updateBal_self _ a _ bal hb'

/-- C7 witness: the concrete burn of 20 from `"b"` (balance 50) on `fifty`,
reaching `thirty` with an empty event list. -/
theorem burn_success_effects_witness :
    20 ≤ 50 ∧
    getBal thirty.token.accounts "b" = some (50 - 20) ∧
    thirty.token.total_supply = fifty.token.total_supply - 20 ∧
    20 ≤ fifty.token.total_supply ∧
    ([] : List HookEvent) = [] :=
  burn_success_effects ⟨"o", 1⟩ fifty thirty "b" 20 50 [] (by decide)
    (by decide)

/-- C8: every successful `ft_transfer` of `amount` from the (registered)
caller to a distinct registered receiver decreases the caller's balance by
exactly `amount`, increases the receiver's balance by exactly `amount`, and
leaves `total_supply` unchanged; the caller's balance sufficed. -/
theorem transfer_conservation (ctx : Ctx) (c c' : Contract)
    (receiver : String) (amt x y : Nat)
    (h : ft_transfer ctx c receiver amt = .ok c')
    (hx : getBal c.token.accounts ctx.predecessor = some x)
    (hy : getBal c.token.accounts receiver = some y) :
    getBal c'.token.accounts ctx.predecessor = some (x - amt) ∧
    getBal c'.token.accounts receiver = some (y + amt) ∧
    c'.token.total_supply = c.token.total_supply ∧
    amt ≤ x := by
  obtain ⟨-, ht, -, -, -⟩ := ft_transfer_ok ctx c c' receiver amt h
  obtain ⟨hne, -, tok1, hw, hd⟩ :=
    internal_transfer_ok _ c'.token _ receiver amt ht
  obtain ⟨x', hx', h1, h2, hacc1, htot1⟩ :=
    internal_withdraw_ok _ tok1 _ amt hw
  have hxx : x = x' := by
    have hq := hx.symm.trans hx'
    injection hq
  subst hxx
  obtain ⟨y', hy', -, -, hacc2, htot2⟩ :=
    internal_deposit_ok tok1 c'.token receiver amt hd
  have h3 : getBal tok1.accounts receiver = getBal c.token.accounts receiver := by
    rw [hacc1]
    exact getBal_updateBal_ne _ ctx.predecessor receiver (x - amt)
      (fun hh => hne hh.symm)
  have hy2 : getBal tok1.accounts receiver = some y := h3.trans hy
  have hyy : y = y' := by
    have hq := hy2.symm.trans hy'
    injection hq
  subst hyy
  refine ⟨?_, ?_, ?_, h1⟩
  · rw [hacc2,
      getBal_updateBal_ne tok1.accounts receiver ctx.predecessor (y + amt) hne,
      hacc1]
    exact getBal_updateBal_self _ ctx.predecessor _ x hx
  · rw [hacc2]
    exact getBal_updateBal_self _ receiver _ y hy'
  · omega

/-- C8 witness: the spec's transfer-conservation scenario — `"a"` (balance
1,000) transfers 400 to `"b"` (balance 0) on `twoAccounts`, reaching
`twoAccountsMoved`: `"a"` holds 600, `"b"` holds 400, `total_supply`
unchanged. -/
theorem transfer_conservation_witness :
    getBal twoAccountsMoved.token.accounts "a" = some (1000 - 400) ∧
    getBal twoAccountsMoved.token.accounts "b" = some (0 + 400) ∧
    twoAccountsMoved.token.total_supply = twoAccounts.token.total_supply ∧
    400 ≤ 1000 :=
  transfer_conservation ⟨"a", 1⟩ twoAccounts twoAccountsMoved "b" 400 1000 0
    (by decide) (by decide) (by decide)

/-- C9: the read-only balance query returns 0 for an unregistered account; it
is a total function of the state and the account id, so it never fails
(`accounts.get(account_id).unwrap_or(0)` in the `impl_fungible_token_core!`
expansion, src line 142). -/
theorem balance_of_unregistered (c : Contract) (a : String)
    (h : getBal c.token.accounts a = none) : ft_balance_of c a = 0 := by
  unfold ft_balance_of
  rw [h]
  rfl

/-- C9 witness: the balance of the unregistered account `"nobody"` on a fresh
contract is 0. -/
theorem balance_of_unregistered_witness :
    ft_balance_of (Contract.new "o" exampleMeta 5) "nobody" = 0 :=
  balance_of_unregistered (Contract.new "o" exampleMeta 5) "nobody" (by decide)

/-- C10: `get_owner` (src lines 73-76) takes the state by mutable reference
but returns the current `owner_id` and leaves every component of the contract
state — token ledger (balances and `total_supply`), `owner_id`, metadata and
`max_supply` — unchanged. -/
theorem get_owner_frame (c : Contract) :
    (get_owner c).1 = c.owner_id ∧
    (get_owner c).2.token = c.token ∧
    (get_owner c).2.owner_id = c.owner_id ∧
    (get_owner c).2.metadata = c.metadata ∧
    (get_owner c).2.max_supply = c.max_supply ∧
    (get_owner c).2 = c :=
  ⟨rfl, rfl, rfl, rfl, rfl, rfl⟩
